import Mathlib

/-!
Verification development for the Cycast streaming server.

Shallow embedding of the streaming dataplane:
- src/audio_buffer.py     (CircularAudioBuffer: fixed-capacity circular byte FIFO)
- src/stream_broadcaster.py (StreamBroadcaster fan-out and per-listener stats)
- src/flask_app.py        (listener HTTP handler: StreamWriter queue, stream generator)
- src/cycast_server.py    (source handshake, ICY metadata sniffing, playlist feeder)

Bytes are modelled as natural numbers (values 0..255 in the real program);
byte strings as lists of naturals; Python text strings as lists of characters.
Partial Python operations that can raise are modelled with Option where the
surrounding code catches the exception.
-/

set_option maxRecDepth 10000

namespace Cycast

/-! ## CircularAudioBuffer (src/audio_buffer.py)

State of the pure-Python circular buffer.  In the source, the constructor
takes size_mb and allocates a bytearray of size_mb * 1024 * 1024 zero bytes.
The lock only serializes accesses; each write/read call is atomic, so the
embedding is a sequential state transformer. -/

structure CircularAudioBuffer where
  size : Nat
  buffer : List Nat
  write_pos : Nat
  read_pos : Nat
  available_bytes : Nat
  deriving Repr, DecidableEq

/-- Empty buffer of capacity C: the state built by the constructor body
(bytearray of C zeros, all positions and counters zero). -/
def mkEmpty (C : Nat) : CircularAudioBuffer :=
  { size := C
    buffer := List.replicate C 0
    write_pos := 0
    read_pos := 0
    available_bytes := 0 }

/-- Constructor of the source: size_mb megabytes. -/
def CircularAudioBuffer.init (size_mb : Nat) : CircularAudioBuffer :=
  mkEmpty (size_mb * 1024 * 1024)

/-- Write loop of CircularAudioBuffer.write: for byte in data:
buffer[write_pos] = byte; write_pos = (write_pos + 1) % size.
Returns the updated byte array and write position. -/
def writeLoop (buf : List Nat) (wpos sz : Nat) : List Nat → List Nat × Nat
  | [] => (buf, wpos)
  | b :: bs => writeLoop (buf.set wpos b) ((wpos + 1) % sz) sz bs

/-- CircularAudioBuffer.write (src/audio_buffer.py lines 21-36): rejects with
False when available_bytes + len(data) > size, otherwise copies the bytes one
by one with wrap-around and adds len(data) to available_bytes. -/
def CircularAudioBuffer.write (s : CircularAudioBuffer) (data : List Nat) :
    Bool × CircularAudioBuffer :=
  if s.available_bytes + data.length > s.size then (false, s)
  else
    let r := writeLoop s.buffer s.write_pos s.size data
    (true, { s with buffer := r.1, write_pos := r.2,
                    available_bytes := s.available_bytes + data.length })

/-- Read loop of CircularAudioBuffer.read: for i in range(to_read):
data[i] = buffer[read_pos]; read_pos = (read_pos + 1) % size.
Positions are always in range under the representation invariant, so the
out-of-range default of getD is never exercised. -/
def readLoop (buf : List Nat) (rpos sz : Nat) : Nat → List Nat × Nat
  | 0 => ([], rpos)
  | n + 1 =>
    let b := buf.getD rpos 0
    let r := readLoop buf ((rpos + 1) % sz) sz n
    (b :: r.1, r.2)

/-- CircularAudioBuffer.read (src/audio_buffer.py lines 38-54): reads
to_read = min(size, available_bytes) bytes; returns the empty byte string
(and leaves the state untouched) when to_read is zero. -/
def CircularAudioBuffer.read (s : CircularAudioBuffer) (n : Nat) :
    List Nat × CircularAudioBuffer :=
  let to_read := min n s.available_bytes
  if to_read = 0 then ([], s)
  else
    let r := readLoop s.buffer s.read_pos s.size to_read
    (r.1, { s with read_pos := r.2, available_bytes := s.available_bytes - to_read })

/-- Representation invariant: the buffer of capacity size cyclically holds the
abstract byte queue q starting at read_pos; write_pos is the cyclic end. -/
structure Inv (s : CircularAudioBuffer) (q : List Nat) : Prop where
  hbuf : s.buffer.length = s.size
  havail : s.available_bytes = q.length
  hle : q.length ≤ s.size
  hrpos : s.read_pos < s.size ∨ (s.size = 0 ∧ s.read_pos = 0)
  hwpos : s.write_pos = (s.read_pos + q.length) % s.size
  hdata : ∀ i, i < q.length → s.buffer.getD ((s.read_pos + i) % s.size) 0 = q.getD i 0

lemma Inv_mkEmpty (C : Nat) : Inv (mkEmpty C) [] := by
  refine ⟨?_, rfl, ?_, ?_, ?_, ?_⟩
  · simp [mkEmpty]
  · simp
  · rcases Nat.eq_zero_or_pos C with h | h
    · exact Or.inr ⟨h, rfl⟩
    · exact Or.inl h
  · simp [mkEmpty]
  · intro i hi; simp at hi

/-- Indices below the modulus that agree after a common cyclic shift are equal. -/
lemma mod_shift_inj {sz i j rpos : Nat} (hi : i < sz) (hj : j < sz)
    (h : (rpos + i) % sz = (rpos + j) % sz) : i = j := by
  have h' : i ≡ j [MOD sz] := Nat.ModEq.add_left_cancel' rpos h
  have : i % sz = j % sz := h'
  rwa [Nat.mod_eq_of_lt hi, Nat.mod_eq_of_lt hj] at this

lemma writeLoop_length (data : List Nat) :
    ∀ (buf : List Nat) (wpos sz : Nat),
      (writeLoop buf wpos sz data).1.length = buf.length := by
  induction data with
  | nil => intro buf wpos sz; simp [writeLoop]
  | cons b bs ih =>
      intro buf wpos sz
      simp [writeLoop, ih]

lemma writeLoop_wpos (data : List Nat) :
    ∀ (buf : List Nat) (wpos sz : Nat),
      (writeLoop buf wpos sz data).2 =
        if data.length = 0 then wpos else (wpos + data.length) % sz := by
  induction data with
  | nil => intro buf wpos sz; simp [writeLoop]
  | cons b bs ih =>
      intro buf wpos sz
      simp only [writeLoop, ih]
      rcases bs with _ | ⟨c, cs⟩
      · simp
      · simp only [List.length_cons, Nat.succ_ne_zero, if_false]
        rw [Nat.mod_add_mod]
        ring_nf

/-- Content of the buffer after the write loop: if the buffer cyclically holds
q starting at rpos and the loop starts at the cyclic end of q, afterwards it
cyclically holds q ++ data. -/
lemma writeLoop_spec (data : List Nat) :
    ∀ (buf q : List Nat) (rpos sz : Nat),
      buf.length = sz →
      q.length + data.length ≤ sz →
      (∀ i, i < q.length → buf.getD ((rpos + i) % sz) 0 = q.getD i 0) →
      ∀ i, i < q.length + data.length →
        (writeLoop buf ((rpos + q.length) % sz) sz data).1.getD ((rpos + i) % sz) 0
          = (q ++ data).getD i 0 := by
  induction data with
  | nil =>
      intro buf q rpos sz hbuf hlen hq i hi
      simp only [List.length_nil, Nat.add_zero] at hi
      simpa [writeLoop] using hq i hi
  | cons b bs ih =>
      intro buf q rpos sz hbuf hlen hq i hi
      have hsz : 0 < sz := by
        have := hlen; simp [List.length_cons] at this; omega
      have hqlt : q.length < sz := by
        simp [List.length_cons] at hlen; omega
      -- one step of the loop writes b at the cyclic end of q
      have hstep :
          writeLoop buf ((rpos + q.length) % sz) sz (b :: bs) =
          writeLoop (buf.set ((rpos + q.length) % sz) b)
            ((rpos + (q ++ [b]).length) % sz) sz bs := by
        simp only [writeLoop, List.length_append, List.length_singleton, Nat.mod_add_mod]
        rw [Nat.add_assoc]
      rw [hstep]
      have hbuf' : (buf.set ((rpos + q.length) % sz) b).length = sz := by
        simp [hbuf]
      have hlen' : (q ++ [b]).length + bs.length ≤ sz := by
        simp [List.length_append]; simp [List.length_cons] at hlen; omega
      have hq' : ∀ i, i < (q ++ [b]).length →
          (buf.set ((rpos + q.length) % sz) b).getD ((rpos + i) % sz) 0
            = (q ++ [b]).getD i 0 := by
        intro j hj
        simp only [List.length_append, List.length_singleton] at hj
        rcases Nat.lt_or_ge j q.length with hjq | hjq
        · have hne : (rpos + j) % sz ≠ (rpos + q.length) % sz := by
            intro hcontra
            exact absurd (mod_shift_inj (lt_trans hjq hqlt) hqlt hcontra) (Nat.ne_of_lt hjq)
          rw [List.getD_eq_getElem?_getD, List.getElem?_set_ne (Ne.symm hne),
              ← List.getD_eq_getElem?_getD]
          rw [hq j hjq]
          rw [List.getD_append _ _ _ _ hjq]
        · have hjq' : j = q.length := by omega
          subst hjq'
          have hlt : (rpos + q.length) % sz < buf.length := by
            rw [hbuf]; exact Nat.mod_lt _ hsz
          rw [List.getD_eq_getElem?_getD, List.getElem?_set_self hlt,
              Option.getD_some]
          rw [List.getD_append_right _ _ _ _ (le_refl _)]
          simp
      have := ih (buf.set ((rpos + q.length) % sz) b) (q ++ [b]) rpos sz
        hbuf' hlen' hq' i (by simp [List.length_append]; simp [List.length_cons] at hi; omega)
      rw [this]
      have : (q ++ [b]) ++ bs = q ++ (b :: bs) := by simp
      rw [this]

/-- Content of the buffer read loop: reading n bytes from a buffer that
cyclically holds q starting at rpos yields the first n bytes of q and leaves
the read position n steps further (cyclically). -/
lemma readLoop_spec :
    ∀ (n : Nat) (q buf : List Nat) (rpos sz : Nat),
      buf.length = sz →
      n ≤ q.length →
      q.length ≤ sz →
      rpos < sz →
      (∀ i, i < q.length → buf.getD ((rpos + i) % sz) 0 = q.getD i 0) →
      readLoop buf rpos sz n = (q.take n, (rpos + n) % sz) := by
  intro n
  induction n with
  | zero =>
      intro q buf rpos sz hbuf hn hq hr hdata
      simp [readLoop, Nat.mod_eq_of_lt hr]
  | succ m ih =>
      intro q buf rpos sz hbuf hn hq hr hdata
      rcases q with _ | ⟨c, qs⟩
      · simp at hn
      have hsz : 0 < sz := Nat.pos_of_lt_add_right (Nat.lt_of_le_of_lt (Nat.zero_le rpos) (by omega))
      have hhead : buf.getD rpos 0 = c := by
        have := hdata 0 (by simp)
        simpa [Nat.mod_eq_of_lt hr] using this
      have hdata' : ∀ i, i < qs.length →
          buf.getD (((rpos + 1) % sz + i) % sz) 0 = qs.getD i 0 := by
        intro i hi
        have := hdata (i + 1) (by simp; omega)
        rw [Nat.mod_add_mod]
        have harith : rpos + 1 + i = rpos + (i + 1) := by omega
        rw [harith]
        simpa using this
      have hih := ih qs buf ((rpos + 1) % sz) sz hbuf (by simp at hn; omega)
        (by simp at hq; omega) (Nat.mod_lt _ hsz) hdata'
      simp only [readLoop, hih, hhead, List.take_succ_cons]
      rw [Nat.mod_add_mod]
      have harith : rpos + 1 + m = rpos + (m + 1) := by omega
      rw [harith]

/-- Accepted write: when the data fits, write returns True, keeps read_pos,
advances write_pos by len(data) with wrap-around, adds len(data) to
available_bytes, and the buffer now cyclically holds q ++ data. -/
lemma write_spec_pos (s : CircularAudioBuffer) (q data : List Nat) (hInv : Inv s q)
    (h : s.available_bytes + data.length ≤ s.size) :
    (s.write data).1 = true ∧
    (s.write data).2.size = s.size ∧
    (s.write data).2.read_pos = s.read_pos ∧
    (s.write data).2.write_pos = (s.write_pos + data.length) % s.size ∧
    (s.write data).2.available_bytes = s.available_bytes + data.length ∧
    Inv (s.write data).2 (q ++ data) := by
  obtain ⟨hbuf, havail, hle, hrpos, hwpos, hdata⟩ := hInv
  have hnot : ¬ (s.available_bytes + data.length > s.size) := by omega
  have hfit : q.length + data.length ≤ s.size := by omega
  have hwpos_new : (writeLoop s.buffer s.write_pos s.size data).2 =
      (s.read_pos + (q.length + data.length)) % s.size := by
    rw [writeLoop_wpos]
    rcases data with _ | ⟨b, bs⟩
    · simp [hwpos]
    · simp only [List.length_cons, Nat.succ_ne_zero, if_false]
      rw [hwpos, Nat.mod_add_mod, Nat.add_assoc]
  have hwpos_new' : (writeLoop s.buffer s.write_pos s.size data).2 =
      (s.write_pos + data.length) % s.size := by
    rw [hwpos_new, hwpos, Nat.mod_add_mod, Nat.add_assoc]
  have hcontent : ∀ i, i < q.length + data.length →
      (writeLoop s.buffer s.write_pos s.size data).1.getD ((s.read_pos + i) % s.size) 0
        = (q ++ data).getD i 0 := by
    have := writeLoop_spec data s.buffer q s.read_pos s.size hbuf hfit hdata
    rwa [← hwpos] at this
  have hwrite : s.write data =
      (true, { s with buffer := (writeLoop s.buffer s.write_pos s.size data).1,
                      write_pos := (writeLoop s.buffer s.write_pos s.size data).2,
                      available_bytes := s.available_bytes + data.length }) := by
    simp [CircularAudioBuffer.write, hnot]
  refine ⟨?_, ?_, ?_, ?_, ?_, ?_⟩
  · rw [hwrite]
  · rw [hwrite]
  · rw [hwrite]
  · rw [hwrite]; exact hwpos_new'
  · rw [hwrite]
  · refine ⟨?_, ?_, ?_, ?_, ?_, ?_⟩
    · rw [hwrite]; simpa [writeLoop_length] using hbuf
    · rw [hwrite]; simp [havail]
    · rw [hwrite]; simp [List.length_append]; omega
    · rw [hwrite]; exact hrpos
    · rw [hwrite]
      simpa [List.length_append] using hwpos_new
    · intro i hi
      rw [hwrite]
      exact hcontent i (by simpa [List.length_append] using hi)

/-- Rejected write: when the data does not fit, write returns False and the
whole state (buffer, positions, counter) is unchanged. -/
lemma write_spec_neg (s : CircularAudioBuffer) (data : List Nat)
    (h : s.available_bytes + data.length > s.size) :
    s.write data = (false, s) := by
  simp [CircularAudioBuffer.write, h]

/-- Read: returns the first min(n, available) queued bytes and leaves the
buffer cyclically holding the rest. -/
lemma read_spec (s : CircularAudioBuffer) (q : List Nat) (n : Nat) (hInv : Inv s q) :
    (s.read n).1 = q.take (min n q.length) ∧
    (s.read n).1.length = min n s.available_bytes ∧
    Inv (s.read n).2 (q.drop (min n q.length)) := by
  obtain ⟨hbuf, havail, hle, hrpos, hwpos, hdata⟩ := hInv
  by_cases h0 : min n s.available_bytes = 0
  · have hq0 : min n q.length = 0 := by rw [← havail]; exact h0
    refine ⟨?_, ?_, ?_⟩
    · simp [CircularAudioBuffer.read, h0, hq0]
    · simp [CircularAudioBuffer.read, h0]
    · have hdrop : q.drop (min n q.length) = q := by simp [hq0]
      rw [hdrop]
      simp only [CircularAudioBuffer.read, h0, if_pos rfl]
      exact ⟨hbuf, havail, hle, hrpos, hwpos, hdata⟩
  · have hmin : min n s.available_bytes = min n q.length := by rw [havail]
    have h0' : ¬ (min n q.length = 0) := by rw [← hmin]; exact h0
    have htpos : 0 < min n q.length := Nat.pos_of_ne_zero h0'
    have htle : min n q.length ≤ q.length := Nat.min_le_right _ _
    have hqpos : 0 < q.length := lt_of_lt_of_le htpos htle
    have hsz : 0 < s.size := lt_of_lt_of_le hqpos hle
    have hr : s.read_pos < s.size := by
      rcases hrpos with h | ⟨h1, _⟩
      · exact h
      · omega
    have hloop := readLoop_spec (min n q.length) q s.buffer s.read_pos s.size
      hbuf htle hle hr hdata
    have hread : s.read n =
        (q.take (min n q.length),
         { s with read_pos := (s.read_pos + min n q.length) % s.size,
                  available_bytes := s.available_bytes - min n q.length }) := by
      simp only [CircularAudioBuffer.read, hmin, if_neg h0', hloop]
    refine ⟨?_, ?_, ?_⟩
    · rw [hread]
    · rw [hread]
      simp only [List.length_take]
      omega
    · rw [hread]
      refine ⟨hbuf, ?_, ?_, ?_, ?_, ?_⟩
      · simp only [List.length_drop]; omega
      · simp only [List.length_drop]; omega
      · exact Or.inl (Nat.mod_lt _ hsz)
      · simp only [List.length_drop]
        rw [hwpos, Nat.mod_add_mod]
        congr 1
        omega
      · intro i hi
        simp only [List.length_drop] at hi
        rw [Nat.mod_add_mod]
        have harith : s.read_pos + min n q.length + i
            = s.read_pos + (min n q.length + i) := by omega
        rw [harith, hdata (min n q.length + i) (by omega)]
        rw [List.getD_eq_getElem?_getD, List.getD_eq_getElem?_getD,
            List.getElem?_drop]

/-! Sequences of buffer operations, for the FIFO conservation property. -/

/-- One client operation on the circular buffer. -/
inductive BufOp where
  | write (data : List Nat)
  | read (n : Nat)

/-- Run a sequence of operations; collect the payloads of accepted writes and
the byte strings returned by the reads, both in execution order. -/
def runOps (s : CircularAudioBuffer) :
    List BufOp → CircularAudioBuffer × List (List Nat) × List (List Nat)
  | [] => (s, [], [])
  | BufOp.write d :: ops =>
      let r := s.write d
      let rest := runOps r.2 ops
      (rest.1, if r.1 then d :: rest.2.1 else rest.2.1, rest.2.2)
  | BufOp.read n :: ops =>
      let r := s.read n
      let rest := runOps r.2 ops
      (rest.1, rest.2.1, r.1 :: rest.2.2)

/-- Refinement of the circular buffer by an abstract byte queue along any
operation sequence: the initial queue plus all accepted writes equals all
reads plus the final queue. -/
lemma runOps_spec : ∀ (ops : List BufOp) (s : CircularAudioBuffer) (q : List Nat),
    Inv s q →
    ∃ qf, Inv (runOps s ops).1 qf ∧
      q ++ ((runOps s ops).2.1).flatten = ((runOps s ops).2.2).flatten ++ qf := by
  intro ops
  induction ops with
  | nil =>
      intro s q hInv
      exact ⟨q, hInv, by simp [runOps]⟩
  | cons op ops ih =>
      intro s q hInv
      cases op with
      | write d =>
          by_cases hacc : s.available_bytes + d.length ≤ s.size
          · obtain ⟨htrue, _, _, _, _, hInv'⟩ := write_spec_pos s q d hInv hacc
            obtain ⟨qf, hInvf, heq⟩ := ih (s.write d).2 (q ++ d) hInv'
            refine ⟨qf, ?_, ?_⟩
            · simpa [runOps] using hInvf
            · simp only [runOps, htrue, if_pos, List.flatten_cons]
              rw [← List.append_assoc]
              exact heq
          · have hrej := write_spec_neg s d (by omega)
            obtain ⟨qf, hInvf, heq⟩ := ih s q hInv
            refine ⟨qf, ?_, ?_⟩
            · simpa [runOps, hrej] using hInvf
            · simpa [runOps, hrej] using heq
      | read n =>
          obtain ⟨hout, _, hInv'⟩ := read_spec s q n hInv
          obtain ⟨qf, hInvf, heq⟩ := ih (s.read n).2 (q.drop (min n q.length)) hInv'
          refine ⟨qf, ?_, ?_⟩
          · simpa [runOps] using hInvf
          · simp only [runOps, List.flatten_cons, hout]
            rw [List.append_assoc, ← heq, ← List.append_assoc,
                List.take_append_drop]

/-- Claim C1: CircularAudioBuffer.write is all-or-nothing.  For every
reachable buffer state (a state cyclically holding some queue q) and every
byte string data: if len(data) exceeds the free space the call returns False
and the state (write_pos, read_pos, available_bytes, contents) is unchanged;
otherwise it returns True, copies all of data (the buffer then cyclically
holds q ++ data), advances write_pos by len(data) with wrap-around, keeps
read_pos, and adds len(data) to available_bytes. -/
theorem write_all_or_nothing (s : CircularAudioBuffer) (q data : List Nat)
    (hInv : Inv s q) :
    (data.length > s.size - s.available_bytes → s.write data = (false, s)) ∧
    (data.length ≤ s.size - s.available_bytes →
      (s.write data).1 = true ∧
      (s.write data).2.available_bytes = s.available_bytes + data.length ∧
      (s.write data).2.write_pos = (s.write_pos + data.length) % s.size ∧
      (s.write data).2.read_pos = s.read_pos ∧
      Inv (s.write data).2 (q ++ data)) := by
  have hle : s.available_bytes ≤ s.size := by
    rw [hInv.havail]; exact hInv.hle
  constructor
  · intro h
    exact write_spec_neg s data (by omega)
  · intro h
    obtain ⟨h1, _, h3, h4, h5, h6⟩ := write_spec_pos s q data hInv (by omega)
    exact ⟨h1, h5, h4, h3, h6⟩

/-- Witness for C1: on an empty 2-byte buffer, a 3-byte write is rejected
with the state unchanged and a 2-byte write is accepted. -/
theorem write_all_or_nothing_witness :
    CircularAudioBuffer.write (mkEmpty 2) [7, 8, 9] = (false, mkEmpty 2) ∧
    (CircularAudioBuffer.write (mkEmpty 2) [4, 5]).1 = true :=
  ⟨(write_all_or_nothing (mkEmpty 2) [] [7, 8, 9] (Inv_mkEmpty 2)).1 (by decide),
   ((write_all_or_nothing (mkEmpty 2) [] [4, 5] (Inv_mkEmpty 2)).2 (by decide)).1⟩

/-- Claim C2: the circular buffer is a byte-conserving FIFO across
wrap-around.  For every capacity C and every operation sequence, the
concatenation of the accepted write payloads extends the concatenation of
the bytes returned by the reads (reads are a prefix of writes, in order);
and every read(n) returns exactly min(n, available_bytes) bytes, in
particular the empty byte string on an empty buffer. -/
theorem ring_fifo_conservation :
    (∀ (C : Nat) (ops : List BufOp), ∃ rest,
      ((runOps (mkEmpty C) ops).2.1).flatten
        = ((runOps (mkEmpty C) ops).2.2).flatten ++ rest) ∧
    (∀ (s : CircularAudioBuffer) (q : List Nat) (n : Nat), Inv s q →
      (s.read n).1.length = min n s.available_bytes ∧
      (s.available_bytes = 0 → (s.read n).1 = [])) := by
  constructor
  · intro C ops
    obtain ⟨qf, _, heq⟩ := runOps_spec ops (mkEmpty C) [] (Inv_mkEmpty C)
    exact ⟨qf, by simpa using heq⟩
  · intro s q n hInv
    obtain ⟨hout, hlen, _⟩ := read_spec s q n hInv
    refine ⟨hlen, ?_⟩
    intro h0
    have hq : q = [] := by
      have := hInv.havail
      rw [h0] at this
      exact (List.length_eq_zero.mp this.symm)
    rw [hout, hq]
    simp

/-- Witness for C2: a concrete straddling sequence on a 4-byte buffer, and a
concrete read on an empty 3-byte buffer. -/
theorem ring_fifo_conservation_witness :
    (∃ rest,
      ((runOps (mkEmpty 4) [BufOp.write [1, 2, 3], BufOp.read 2,
          BufOp.write [9, 8], BufOp.read 10]).2.1).flatten
        = ((runOps (mkEmpty 4) [BufOp.write [1, 2, 3], BufOp.read 2,
            BufOp.write [9, 8], BufOp.read 10]).2.2).flatten ++ rest) ∧
    ((mkEmpty 3).read 5).1.length = min 5 (mkEmpty 3).available_bytes :=
  ⟨ring_fifo_conservation.1 4 [BufOp.write [1, 2, 3], BufOp.read 2,
      BufOp.write [9, 8], BufOp.read 10],
   (ring_fifo_conservation.2 (mkEmpty 3) [] 5 (Inv_mkEmpty 3)).1⟩

/-! ## StreamWriter (src/flask_app.py lines 363-384)

Per-listener queue writer created inside the stream generator.  The Python
queue.Queue(maxsize=500) rejects a non-blocking put exactly when it already
holds maxsize items; the except queue.Full handler is a bare pass, so the
incoming chunk is discarded. -/

structure StreamWriter where
  queue : List (List Nat)
  maxsize : Nat
  active : Bool
  deriving Repr, DecidableEq

/-- StreamWriter.write: non-blocking put of the chunk; when the queue is
full the queue.Full exception is swallowed and the state is left as it was
(the incoming chunk is lost). -/
def StreamWriter.write (w : StreamWriter) (data : List Nat) : StreamWriter :=
  if w.active then
    if w.queue.length < w.maxsize then { w with queue := w.queue ++ [data] }
    else w
  else w

/-- A full listener queue of 500 copies of chunk c1 (byte 0), the default
capacity in the source. -/
def fullQueue500 : StreamWriter :=
  { queue := List.replicate 500 [0], maxsize := 500, active := true }

/-- Claim C3 (code_bug evidence): pushing chunk c501 = byte 1 onto a full
queue of 500 chunks c1 = byte 0 leaves the queue exactly as it was: the NEW
chunk is dropped and never enqueued, while the oldest chunk c1 stays at the
head, contradicting the drop-oldest policy (and the comment in the except
branch of the source). -/
theorem streamwriter_drops_newest_not_oldest :
    (fullQueue500.write [1]).queue = List.replicate 500 [0] ∧
    [1] ∉ (fullQueue500.write [1]).queue ∧
    (fullQueue500.write [1]).queue.headD [] = [0] := by
  have hw : fullQueue500.write [1] = fullQueue500 := by
    simp [StreamWriter.write, fullQueue500]
  rw [hw]
  refine ⟨rfl, ?_, ?_⟩
  · intro hmem
    have := List.eq_of_mem_replicate (show [1] ∈ List.replicate 500 [0] from hmem)
    simp at this
  · rfl

/-! ## StreamBroadcaster statistics (src/stream_broadcaster.py lines 53-62)

In _broadcast_chunk the broadcaster calls writer.write(chunk),
writer.flush() and then unconditionally adds len(chunk) to the listener's
bytes_sent entry; StreamWriter.write never raises (queue.Full is caught
inside), so the increment happens whether or not the chunk was enqueued. -/

structure ListenerInfo where
  writer : StreamWriter
  bytes_sent : Nat
  deriving Repr, DecidableEq

/-- One fan-out step for one listener, as executed by _broadcast_chunk. -/
def broadcastToListener (info : ListenerInfo) (chunk : List Nat) : ListenerInfo :=
  { writer := info.writer.write chunk
    bytes_sent := info.bytes_sent + chunk.length }

/-- Claim C9 (code_bug evidence): for a listener whose queue is full, the
broadcast step drops the chunk (the queue is unchanged and the chunk is not
in it) yet still increments bytes_sent by the chunk length, so bytes_sent
overcounts the bytes actually queued or delivered. -/
theorem bytes_sent_counted_for_dropped_chunk :
    (broadcastToListener ⟨fullQueue500, 0⟩ [1, 2, 3]).bytes_sent = 3 ∧
    (broadcastToListener ⟨fullQueue500, 0⟩ [1, 2, 3]).writer.queue
      = List.replicate 500 [0] := by
  have hw : fullQueue500.write [1, 2, 3] = fullQueue500 := by
    simp [StreamWriter.write, fullQueue500]
  exact ⟨rfl, by simp [broadcastToListener, hw]; rfl⟩

/-! ## Listener stream generator (src/flask_app.py lines 359-410)

The generate() loop repeatedly takes a chunk off the listener queue and
yields it when it is non-empty.  Its output is a pure pass-through of the
dequeued chunks: no metadata of any kind is inserted, even though the
response advertises icy-metaint when the request carried Icy-MetaData: 1
and ICY is enabled (lines 422-426). -/

/-- Byte stream emitted by generate() for a given sequence of dequeued
chunks: each truthy (non-empty) chunk is yielded as is. -/
def generateEmit (chunks : List (List Nat)) : List Nat :=
  (chunks.filter (fun c => !c.isEmpty)).flatten

/-- Claim C4 (code_bug evidence): the emitted listener byte stream is exactly
the concatenation of the audio chunks: the handler never interleaves any ICY
metadata block, for any meta interval and any metadata, contradicting the
claimed alternation of M audio bytes and a metadata block. -/
theorem generate_emits_raw_audio_only :
    ∀ (chunks : List (List Nat)), generateEmit chunks = chunks.flatten := by
  intro chunks
  induction chunks with
  | nil => rfl
  | cons c cs ih =>
      cases hc : c.isEmpty with
      | false =>
          simp [generateEmit, List.filter_cons, hc] at ih ⊢
          exact ih
      | true =>
          have : c = [] := List.isEmpty_iff.mp hc
          subst this
          simp [generateEmit, List.filter_cons] at ih ⊢
          exact ih

/-! ## Playlist feeder (src/cycast_server.py lines 112-179)

Inner streaming loop: at each iteration the feeder first checks (under
source_lock) whether a live source is attached and breaks if so; otherwise
it reads the next chunk of up to 8192 bytes and writes it into the buffer
(retrying until accepted).  The schedule s models the value the flag check
observes at each iteration: if the source attaches during iteration k
(after the check of iteration k), checks 0..k observe false and all later
checks observe true. -/

/-- Chunks produced by f.read(8192) until end of file. -/
def chunkify8192 : List Nat → List (List Nat)
  | [] => []
  | b :: bs => ((b :: bs).take 8192) :: chunkify8192 ((b :: bs).drop 8192)
termination_by l => l.length
decreasing_by simp [List.length_drop]; omega

/-- Inner feeder loop over the file chunks: at iteration i it stops before
writing anything if the flag check observes true, otherwise writes the
chunk and continues.  Returns the chunks actually written. -/
def feederLoop (s : Nat → Bool) (i : Nat) : List (List Nat) → List (List Nat)
  | [] => []
  | c :: cs => if s i then [] else c :: feederLoop s (i + 1) cs

lemma chunkify8192_le (l : List Nat) :
    ∀ c ∈ chunkify8192 l, c.length ≤ 8192 := by
  induction l using chunkify8192.induct with
  | case1 => intro c hc; simp [chunkify8192] at hc
  | case2 b bs ih =>
      intro c hc
      simp only [chunkify8192, List.mem_cons] at hc
      rcases hc with hc | hc
      · subst hc
        simp
      · exact ih c hc

lemma feederLoop_attach_at (k : Nat) :
    ∀ (cs : List (List Nat)) (j : Nat),
      feederLoop (fun i => decide (k < i)) j cs = cs.take (k + 1 - j) := by
  intro cs
  induction cs with
  | nil => intro j; simp [feederLoop]
  | cons c cs ih =>
      intro j
      by_cases hj : k < j
      · have : k + 1 - j = 0 := by omega
        simp [feederLoop, hj, this]
      · have h1 : k + 1 - j = (k + 1 - (j + 1)) + 1 := by omega
        simp [feederLoop, hj, ih (j + 1), h1]

/-- Claim C5: playlist preemption within one chunk.  If the live source
attaches during iteration k of the feeder's streaming loop (so the flag
checks of iterations up to k observe false and later checks observe true),
the bytes the feeder writes from iteration k on are at most one chunk of at
most 8192 bytes; the next check breaks the loop.  Individual buffer writes
are serialized by the buffer lock, so in this atomic-step model at most one
producer is writing at any step. -/
theorem feeder_preemption_within_one_chunk (audio : List Nat) (k : Nat) :
    (((feederLoop (fun i => decide (k < i)) 0 (chunkify8192 audio)).drop k).flatten).length
      ≤ 8192 := by
  rw [feederLoop_attach_at k (chunkify8192 audio) 0]
  have hdt : ((chunkify8192 audio).take (k + 1 - 0)).drop k
      = ((chunkify8192 audio).drop k).take 1 := by
    rw [List.drop_take]
    congr 1
    omega
  rw [hdt]
  rcases hrest : (chunkify8192 audio).drop k with _ | ⟨c, cs⟩
  · simp
  · have hc : c ∈ chunkify8192 audio := by
      have : c ∈ (chunkify8192 audio).drop k := by rw [hrest]; simp
      exact List.drop_subset _ _ this
    have := chunkify8192_le audio c hc
    simpa using this

/-! ## Playlist feeder ID3v2 skipping (src/cycast_server.py lines 137-145)

Before streaming a playlist file the feeder reads the first 10 bytes; if
they begin with the ASCII bytes of ID3 it decodes the synchsafe tag size
from bytes 6..9 and seeks to size + 10, otherwise it seeks back to 0.  If
the file is shorter than 10 bytes yet begins with ID3, indexing header[6..9]
raises IndexError, the per-file except handler fires and nothing is
written. -/

/-- ASCII bytes of the tag magic ID3. -/
def id3Magic : List Nat := [73, 68, 51]

/-- Synchsafe size from header bytes 6..9:
size = (b6 and 0x7f) shl 21 or (b7 and 0x7f) shl 14 or (b8 and 0x7f) shl 7
or (b9 and 0x7f). -/
def id3SyncsafeSize (header : List Nat) : Nat :=
  ((header.getD 6 0) &&& 127) <<< 21 |||
  ((header.getD 7 0) &&& 127) <<< 14 |||
  ((header.getD 8 0) &&& 127) <<< 7 |||
  ((header.getD 9 0) &&& 127)

/-- Bytes of the file the feeder will stream, from the seek target onwards;
none when the short-ID3 IndexError makes the feeder skip the file. -/
def feederReadFile (file : List Nat) : Option (List Nat) :=
  let header := file.take 10
  if header.take 3 = id3Magic then
    if header.length < 10 then none
    else some (file.drop (id3SyncsafeSize header + 10))
  else some (file.drop 0)

/-- Bytes the feeder writes into the ring buffer for one file: the seeked
remainder, read and written in chunks of 8192 bytes. -/
def feederWrittenBytes (file : List Nat) : Option (List Nat) :=
  (feederReadFile file).map (fun rest => (chunkify8192 rest).flatten)

/-- First byte the feeder writes for the file, if any. -/
def feederFirstByte (file : List Nat) : Option Nat :=
  (feederWrittenBytes file).bind List.head?

lemma chunkify8192_flatten (l : List Nat) : (chunkify8192 l).flatten = l := by
  induction l using chunkify8192.induct with
  | case1 => simp [chunkify8192]
  | case2 b bs ih =>
      simp only [chunkify8192, List.flatten_cons, ih, List.take_append_drop]

/-- Claim C8: ID3v2 skip.  For a playlist file whose first 10 bytes start
with ID3 and declare synchsafe size S, the first byte the feeder writes is
the file byte at offset 10 + S (none if the file ends before that offset);
for a file not starting with ID3, it is the byte at offset 0. -/
theorem id3v2_skip (file : List Nat) :
    (file.take 3 = id3Magic → 10 ≤ file.length →
      feederFirstByte file = file[10 + id3SyncsafeSize (file.take 10)]?) ∧
    (file.take 3 ≠ id3Magic → feederFirstByte file = file[0]?) := by
  have htt : (file.take 10).take 3 = file.take 3 := by
    simp [List.take_take]
  constructor
  · intro hid3 hlen
    have hlen10 : (file.take 10).length = 10 := by
      simp [List.length_take]; omega
    have hread : feederReadFile file
        = some (file.drop (id3SyncsafeSize (file.take 10) + 10)) := by
      simp [feederReadFile, htt, hid3, hlen10]
    simp only [feederFirstByte, feederWrittenBytes, hread, Option.map_some',
      Option.some_bind, chunkify8192_flatten]
    rw [List.head?_eq_getElem?, List.getElem?_drop]
    congr 1
    omega
  · intro hnot
    have hread : feederReadFile file = some (file.drop 0) := by
      simp [feederReadFile, htt, hnot]
    simp [feederFirstByte, feederWrittenBytes, hread, chunkify8192_flatten,
      List.head?_eq_getElem?]

/-- Witness for C8: a 14-byte file with an ID3 header declaring size 2, whose
byte at offset 12 is 42, and a 2-byte file without the magic. -/
theorem id3v2_skip_witness :
    feederFirstByte [73, 68, 51, 4, 0, 0, 0, 0, 0, 2, 9, 9, 42, 7] = some 42 ∧
    feederFirstByte [5, 6] = some 5 := by
  constructor
  · have := (id3v2_skip [73, 68, 51, 4, 0, 0, 0, 0, 0, 2, 9, 9, 42, 7]).1
      (by decide) (by decide)
    rw [this]
    decide
  · have := (id3v2_skip [5, 6]).2 (by decide)
    rw [this]
    decide

/-! ## Python string and bytes primitives

firstMatch l pat is the lowest index at which pat occurs in l (the Python
find with start 0); pyFind adds the start parameter and the -1 convention
of bytes.find; containsSub is the Python in operator on byte strings. -/

/-- Lowest index of an occurrence of pat in l, if any. -/
def firstMatch {α : Type} [DecidableEq α] (l pat : List α) : Option Nat :=
  (List.range (l.length + 1)).find? (fun i => pat.isPrefixOf (l.drop i))

/-- Python membership test for a substring. -/
def containsSub {α : Type} [DecidableEq α] (l pat : List α) : Bool :=
  (firstMatch l pat).isSome

/-- Python find(pat, start): lowest occurrence index that is at least start,
or -1. -/
def pyFind {α : Type} [DecidableEq α] (l pat : List α) (start : Nat) : Int :=
  match firstMatch (l.drop start) pat with
  | some i => ((start + i : Nat) : Int)
  | none => -1

/-- Python split(sep, 1): the parts before and after the first occurrence of
sep.  Only used after a containment check, so the sep-absent fallback is
immaterial. -/
def pySplit1 {α : Type} [DecidableEq α] (l sep : List α) : List α × List α :=
  match firstMatch l sep with
  | some i => (l.take i, l.drop (i + sep.length))
  | none => (l, [])

/-! ## UTF-8 decoding

Python bytes.decode(utf-8) raises UnicodeDecodeError on ill-formed input
(strict variant, Option) while errors=ignore skips the ill-formed bytes
(total variant).  The byte-range checks reject continuation-byte
mismatches, overlong encodings, surrogates and code points above
0x10FFFF exactly as CPython does. -/

/-- One UTF-8 sequence step: given a leading byte and the following bytes,
returns the decoded character and the bytes after the sequence, or none when
the sequence is ill-formed at this position. -/
def utf8Step (b : Nat) (rest : List Nat) : Option (Char × List Nat) :=
  if b < 128 then some (Char.ofNat b, rest)
  else if 194 ≤ b ∧ b ≤ 223 then
    match rest with
    | b2 :: rest2 =>
      if 128 ≤ b2 ∧ b2 ≤ 191 then
        some (Char.ofNat ((b - 192) * 64 + (b2 - 128)), rest2)
      else none
    | [] => none
  else if 224 ≤ b ∧ b ≤ 239 then
    match rest with
    | b2 :: b3 :: rest3 =>
      if (224 < b ∨ 160 ≤ b2) ∧ (b ≠ 237 ∨ b2 ≤ 159) ∧
          128 ≤ b2 ∧ b2 ≤ 191 ∧ 128 ≤ b3 ∧ b3 ≤ 191 then
        some (Char.ofNat ((b - 224) * 4096 + (b2 - 128) * 64 + (b3 - 128)), rest3)
      else none
    | _ => none
  else if 240 ≤ b ∧ b ≤ 244 then
    match rest with
    | b2 :: b3 :: b4 :: rest4 =>
      if (240 < b ∨ 144 ≤ b2) ∧ (b ≠ 244 ∨ b2 ≤ 143) ∧
          128 ≤ b2 ∧ b2 ≤ 191 ∧ 128 ≤ b3 ∧ b3 ≤ 191 ∧ 128 ≤ b4 ∧ b4 ≤ 191 then
        some (Char.ofNat
          ((b - 240) * 262144 + (b2 - 128) * 4096 + (b3 - 128) * 64 + (b4 - 128)), rest4)
      else none
    | _ => none
  else none

lemma utf8Step_length (b : Nat) (rest : List Nat) (c : Char) (rest2 : List Nat)
    (h : utf8Step b rest = some (c, rest2)) : rest2.length ≤ rest.length := by
  unfold utf8Step at h
  repeat' split at h
  all_goals simp_all
  all_goals omega

/-- Strict UTF-8 decoding: none models UnicodeDecodeError.  Recursion is by
a fuel argument; each step consumes at least one byte, so fuel equal to the
length of the input (as supplied by utf8Decode) never runs out. -/
def utf8DecodeAux : Nat → List Nat → Option (List Char)
  | _, [] => some []
  | 0, _ :: _ => none
  | fuel + 1, b :: rest =>
    match utf8Step b rest with
    | some (c, rest2) => (utf8DecodeAux fuel rest2).map (fun cs => c :: cs)
    | none => none

/-- Python bytes.decode(utf-8), strict errors. -/
def utf8Decode (l : List Nat) : Option (List Char) :=
  utf8DecodeAux l.length l

/-- UTF-8 decoding with errors=ignore: an ill-formed leading byte is skipped
and decoding resumes at the next byte (stray continuation bytes are then
skipped one at a time, which yields the same output as the maximal-subpart
skipping of CPython). -/
def utf8DecodeIgnoreAux : Nat → List Nat → List Char
  | _, [] => []
  | 0, _ :: _ => []
  | fuel + 1, b :: rest =>
    match utf8Step b rest with
    | some (c, rest2) => c :: utf8DecodeIgnoreAux fuel rest2
    | none => utf8DecodeIgnoreAux fuel rest

/-- Python bytes.decode(utf-8, errors=ignore). -/
def utf8DecodeIgnore (l : List Nat) : List Char :=
  utf8DecodeIgnoreAux l.length l

/-! ## ICY metadata sniffing (src/cycast_server.py lines 95-110)

parse_icy_metadata looks for the 13 ASCII bytes of StreamTitle= followed by
a single quote, then for the terminator quote-semicolon; only when the
terminator lies strictly after the opening quote is anything updated.  The
extracted bytes are decoded with errors=ignore, split on the 3-character
separator space-dash-space at its first occurrence when present, and stored
in the metadata registry.  All failures are caught, so the function is
total. -/

/-- Current metadata registry entry: a Python dict with title and artist. -/
structure Metadata where
  title : List Char
  artist : List Char
  deriving Repr, DecidableEq

/-- Bytes 83..39: the ASCII characters of StreamTitle= followed by a single
quote character (39); its length is the 13 the source adds to the start
index. -/
def strmMarker : List Nat := [83, 116, 114, 101, 97, 109, 84, 105, 116, 108, 101, 61, 39]

/-- Terminator bytes: single quote then semicolon. -/
def titleEnd : List Nat := [39, 59]

/-- Separator: space, dash, space. -/
def sepDash : List Char := [' ', '-', ' ']

/-- StreamServer.parse_icy_metadata as a transformer of the metadata
registry. -/
def parse_icy_metadata (cur : Metadata) (data : List Nat) : Metadata :=
  if containsSub data strmMarker then
    let start : Int := pyFind data strmMarker 0 + 13
    let endIdx : Int := pyFind data titleEnd start.toNat
    if start < endIdx then
      let title := utf8DecodeIgnore ((data.take endIdx.toNat).drop start.toNat)
      if containsSub title sepDash then
        let p := pySplit1 title sepDash
        { title := p.2, artist := p.1 }
      else
        { title := title, artist := [] }
    else cur
  else cur

/-- Claim C7 (amended: the quoted value must be nonempty, since the source
only updates when the terminator lies strictly after the opening quote; and
the split operates on the UTF-8 errors=ignore decoding of the quoted bytes,
so undecodable bytes are dropped before the separator search).  For a chunk
of the shape prefix ++ StreamTitle-marker ++ s ++ terminator ++ suffix
whose first marker occurrence starts at the prefix length and whose first
terminator occurrence after the marker sits exactly at the end of s, with s
nonempty: the registry is updated by decoding s with errors=ignore and
splitting the decoded text at the first occurrence of the separator
space-dash-space into artist (part before) and title (part after) when the
separator occurs, and otherwise the whole decoded text becomes the title
with an empty artist. -/
theorem parse_icy_streamtitle_split
    (p s q : List Nat) (cur : Metadata)
    (hm : firstMatch (p ++ strmMarker ++ s ++ titleEnd ++ q) strmMarker = some p.length)
    (he : pyFind (p ++ strmMarker ++ s ++ titleEnd ++ q) titleEnd (p.length + 13)
        = ((p.length + 13 + s.length : Nat) : Int))
    (hs : s ≠ []) :
    parse_icy_metadata cur (p ++ strmMarker ++ s ++ titleEnd ++ q)
      = match firstMatch (utf8DecodeIgnore s) sepDash with
        | some j => { title := (utf8DecodeIgnore s).drop (j + 3),
                      artist := (utf8DecodeIgnore s).take j }
        | none => { title := utf8DecodeIgnore s, artist := [] } := by
  have hcontains : containsSub (p ++ strmMarker ++ s ++ titleEnd ++ q) strmMarker = true := by
    rw [containsSub, hm]
    rfl
  have hfind0 : pyFind (p ++ strmMarker ++ s ++ titleEnd ++ q) strmMarker 0
      = (p.length : Int) := by
    unfold pyFind
    rw [List.drop_zero, hm]
    simp
  have hstartNat : ((p.length : Int) + 13).toNat = p.length + 13 := by
    omega
  have hslen : s.length ≠ 0 := by
    simpa [List.length_eq_zero] using hs
  have hlt : ((p.length : Int) + 13) < ((p.length + 13 + s.length : Nat) : Int) := by
    push_cast
    omega
  have hendNat : (((p.length + 13 + s.length : Nat) : Int)).toNat
      = p.length + 13 + s.length := by
    omega
  have hslice : ((p ++ strmMarker ++ s ++ titleEnd ++ q).take (p.length + 13 + s.length)).drop
      (p.length + 13) = s := by
    have hassoc : p ++ strmMarker ++ s ++ titleEnd ++ q
        = ((p ++ strmMarker) ++ s) ++ (titleEnd ++ q) := by
      simp [List.append_assoc]
    rw [hassoc, List.take_left' (by simp [strmMarker]; try omega),
        List.drop_left' (by simp [strmMarker]; try omega)]
  rw [parse_icy_metadata, if_pos hcontains]
  simp only [hfind0, hstartNat, he, hendNat, if_pos hlt, hslice]
  cases hsep : firstMatch (utf8DecodeIgnore s) sepDash with
  | some j =>
      have hcsep : containsSub (utf8DecodeIgnore s) sepDash = true := by
        rw [containsSub, hsep]
        rfl
      simp only [hcsep, if_true, pySplit1, hsep]
      rfl
  | none =>
      have hcsep : containsSub (utf8DecodeIgnore s) sepDash = false := by
        rw [containsSub, hsep]
        rfl
      simp [hcsep]

/-- Counterexample to C7 as stated: the chunk consisting exactly of the
marker followed immediately by the terminator carries the empty quoted
value; the claim says the registry becomes title = empty, artist = empty,
but the source leaves the registry unchanged because the terminator index
does not exceed the start index. -/
theorem parse_icy_empty_title_counterexample :
    parse_icy_metadata { title := ['X'], artist := [] } (strmMarker ++ titleEnd)
      = { title := ['X'], artist := [] } ∧
    ({ title := ['X'], artist := [] } : Metadata) ≠ { title := [], artist := [] } := by
  constructor
  · decide
  · decide

/-- Witness for C7: the chunk StreamTitle-marker ++ Artist X - Song Y ++
terminator updates the registry to title Song Y, artist Artist X; and a
quoted value consisting of the undecodable byte 255 followed by the letter
A yields title A (the invalid byte is dropped by errors=ignore). -/
theorem parse_icy_streamtitle_split_witness :
    parse_icy_metadata { title := [], artist := [] }
      ([] ++ strmMarker ++ [65, 114, 116, 105, 115, 116, 32, 88, 32, 45, 32,
        83, 111, 110, 103, 32, 89] ++ titleEnd ++ [])
      = { title := ("Song Y").data, artist := ("Artist X").data } ∧
    parse_icy_metadata { title := [], artist := [] }
      ([] ++ strmMarker ++ [255, 65] ++ titleEnd ++ [])
      = { title := ['A'], artist := [] } := by
  constructor
  · have h := parse_icy_streamtitle_split []
      [65, 114, 116, 105, 115, 116, 32, 88, 32, 45, 32, 83, 111, 110, 103, 32, 89] []
      { title := [], artist := [] }
      (by decide) (by decide) (by decide)
    rw [h]
    decide
  · have h := parse_icy_streamtitle_split [] [255, 65] []
      { title := [], artist := [] }
      (by decide) (by decide) (by decide)
    rw [h]
    decide

/-- Claim C10: parse_icy_metadata is a no-op on chunks that contain the
StreamTitle marker but whose terminator search does not land strictly after
the opening quote: both the missing-terminator case (find returns -1) and
the empty-value case (terminator immediately after the quote) leave
current_metadata unchanged, and the function is total so no exception
escapes. -/
theorem parse_icy_malformed_frame (cur : Metadata) (data : List Nat)
    (hmark : containsSub data strmMarker = true)
    (hend : pyFind data titleEnd (pyFind data strmMarker 0 + 13).toNat
        ≤ pyFind data strmMarker 0 + 13) :
    parse_icy_metadata cur data = cur := by
  rw [parse_icy_metadata, if_pos hmark]
  simp only [if_neg (not_lt.mpr hend)]

/-- Witness for C10: a chunk with the marker and no terminator, and a chunk
with an empty quoted value; both leave the registry untouched. -/
theorem parse_icy_malformed_frame_witness :
    parse_icy_metadata { title := ['X'], artist := ['Y'] } (strmMarker ++ [97, 98, 99])
      = { title := ['X'], artist := ['Y'] } ∧
    parse_icy_metadata { title := ['X'], artist := ['Y'] } (strmMarker ++ titleEnd)
      = { title := ['X'], artist := ['Y'] } :=
  ⟨parse_icy_malformed_frame _ _ (by decide) (by decide),
   parse_icy_malformed_frame _ _ (by decide) (by decide)⟩

/-! ## Source connection handshake (src/cycast_server.py lines 181-231)

The handler decodes the received request bytes (errors=ignore; we model the
resulting text as a character list), splits it on CRLF, checks that the
request line starts with SOURCE or PUT, scans all lines for Authorization:
Basic credentials whose base64 payload decodes to user:pass with pass equal
to the configured source password, and answers 405, 401 or 200
accordingly.  Every exception inside the per-line try block (missing token,
binascii.Error, UnicodeDecodeError) makes that line contribute no
authentication. -/

/-- Python split on the two-character separator CR LF. -/
def splitCRLF : List Char → List (List Char)
  | [] => [[]]
  | '\r' :: '\n' :: rest => [] :: splitCRLF rest
  | c :: rest =>
    match splitCRLF rest with
    | [] => [[c]]
    | l :: ls => (c :: l) :: ls

/-- Python split on a single-character separator. -/
def splitOnElem (sep : Char) : List Char → List (List Char)
  | [] => [[]]
  | c :: rest =>
    if c = sep then [] :: splitOnElem sep rest
    else
      match splitOnElem sep rest with
      | [] => [[c]]
      | l :: ls => (c :: l) :: ls

/-- Value of a standard base64 alphabet character. -/
def b64Val (c : Char) : Option Nat :=
  if 'A' ≤ c ∧ c ≤ 'Z' then some (c.toNat - 65)
  else if 'a' ≤ c ∧ c ≤ 'z' then some (c.toNat - 71)
  else if '0' ≤ c ∧ c ≤ '9' then some (c.toNat + 4)
  else if c = '+' then some 62
  else if c = '/' then some 63
  else none

/-- State machine of binascii.a2b_base64 in its default non-strict mode,
which base64.b64decode calls when validate is false (the default used by
the source).  quad_pos counts the alphabet characters accumulated in the
current group of four, left holds their pending low bits, pads counts the
padding characters seen since the last alphabet character.  Characters
outside the alphabet are skipped; a padding character is skipped too unless
at least two alphabet characters are pending, and when quad_pos plus the
incremented pad count reaches four the data ends there and the remaining
input is ignored.  At end of input a nonzero quad_pos raises
binascii.Error (incorrect padding, or a character count one more than a
multiple of four), modelled as none. -/
def a2b64Loop : List Char → Nat → Nat → Nat → Option (List Nat)
  | [], qp, _, _ => if qp = 0 then some [] else none
  | c :: rest, qp, left, pads =>
    if c = '=' then
      if 2 ≤ qp then
        if 4 ≤ qp + (pads + 1) then some []
        else a2b64Loop rest qp left (pads + 1)
      else a2b64Loop rest qp left pads
    else
      match b64Val c with
      | none => a2b64Loop rest qp left pads
      | some v =>
        match qp with
        | 0 => a2b64Loop rest 1 v 0
        | 1 => (a2b64Loop rest 2 (v % 16) 0).map (fun r => (left * 4 + v / 16) :: r)
        | 2 => (a2b64Loop rest 3 (v % 4) 0).map (fun r => (left * 16 + v / 4) :: r)
        | _ => (a2b64Loop rest 0 0 0).map (fun r => (left * 64 + v) :: r)

/-- Python base64.b64decode on a str argument: the string is first encoded
as ASCII (a non-ASCII character raises ValueError, caught by the handler),
then fed to the non-strict a2b_base64 machine. -/
def pyB64Decode (s : List Char) : Option (List Nat) :=
  if s.all (fun c => c.toNat < 128) then a2b64Loop s 0 0 0 else none

/-- Header prefix the auth loop looks for. -/
def sAuthBasic : List Char := "Authorization: Basic ".data

/-- One iteration of the authentication loop of handle_source_connection:
true when this request line authenticates against the configured password.
The source takes split(space) index 2 as the token, base64-decodes it,
utf-8 decodes it, requires a colon and compares the part after the first
colon with the password; any failure is caught and contributes false. -/
def authLineOk (pw : List Char) (line : List Char) : Bool :=
  if sAuthBasic.isPrefixOf line then
    match (splitOnElem ' ' line)[2]? with
    | none => false
    | some tok =>
      match pyB64Decode tok with
      | none => false
      | some bs =>
        match utf8Decode bs with
        | none => false
        | some auth =>
          if auth.contains ':' then
            decide ((pySplit1 auth [':']).2 = pw)
          else false
  else false

/-- The three responses the handshake can send. -/
inductive SourceResponse where
  | r405
  | r401
  | r200
  deriving Repr, DecidableEq

/-- Request line prefixes accepted by the source handshake. -/
def sSOURCE : List Char := "SOURCE".data

/-- Second accepted request line prefix. -/
def sPUT : List Char := "PUT".data

/-- Handshake of handle_source_connection: 405 when the request line starts
with neither SOURCE nor PUT, otherwise 401 unless some header line
authenticates, in which case 200 and streaming mode. -/
def handleSource (request pw : List Char) : SourceResponse :=
  let lines := splitCRLF request
  let line0 := lines.headD []
  if !(sSOURCE.isPrefixOf line0 || sPUT.isPrefixOf line0) then SourceResponse.r405
  else if lines.any (authLineOk pw) then SourceResponse.r200
  else SourceResponse.r401

/-- Method of the request: the first space-separated token of the request
line. -/
def requestMethod (request : List Char) : List Char :=
  ((splitCRLF request).headD []).takeWhile (fun c => c ≠ ' ')

/-- Counterexample to C6 as stated: the method PUTS is not in the set
containing SOURCE and PUT, so the claim requires a 405, but the source only
checks that the request line starts with SOURCE or PUT, accepts PUTS and
proceeds to authentication (here answering 401). -/
theorem source_handshake_method_counterexample :
    requestMethod ("PUTS /stream HTTP/1.0\r\n\r\n").data ≠ ("SOURCE").data ∧
    requestMethod ("PUTS /stream HTTP/1.0\r\n\r\n").data ≠ ("PUT").data ∧
    handleSource ("PUTS /stream HTTP/1.0\r\n\r\n").data ("hackme").data
      ≠ SourceResponse.r405 := by
  refine ⟨by decide, by decide, by decide⟩

/-- Claim C6 (amended: the method test is a prefix test on the request
line, so any method extending SOURCE or PUT is accepted as well).  The
handshake answers 405 exactly when the request line starts with neither
SOURCE nor PUT; answers 401 when the line is accepted but no header
authenticates; and answers 200 (entering streaming mode) if and only if the
line is accepted and some Authorization: Basic header base64-decodes to
user:pass with pass equal to the configured source password. -/
theorem source_handshake_responses (request pw : List Char) :
    (¬ (sSOURCE.isPrefixOf ((splitCRLF request).headD []) = true
        ∨ sPUT.isPrefixOf ((splitCRLF request).headD []) = true) →
      handleSource request pw = SourceResponse.r405) ∧
    ((sSOURCE.isPrefixOf ((splitCRLF request).headD []) = true
        ∨ sPUT.isPrefixOf ((splitCRLF request).headD []) = true) →
      ¬ (∃ line ∈ splitCRLF request, authLineOk pw line = true) →
      handleSource request pw = SourceResponse.r401) ∧
    (handleSource request pw = SourceResponse.r200 ↔
      ((sSOURCE.isPrefixOf ((splitCRLF request).headD []) = true
        ∨ sPUT.isPrefixOf ((splitCRLF request).headD []) = true)
       ∧ ∃ line ∈ splitCRLF request, authLineOk pw line = true)) := by
  have hchar : handleSource request pw =
      if (sSOURCE.isPrefixOf ((splitCRLF request).headD [])
          || sPUT.isPrefixOf ((splitCRLF request).headD [])) = true then
        (if (splitCRLF request).any (authLineOk pw) = true
          then SourceResponse.r200 else SourceResponse.r401)
      else SourceResponse.r405 := by
    simp only [handleSource]
    cases hb : (sSOURCE.isPrefixOf ((splitCRLF request).headD [])
        || sPUT.isPrefixOf ((splitCRLF request).headD [])) <;>
      cases hA : (splitCRLF request).any (authLineOk pw) <;> simp [hb, hA]
  refine ⟨?_, ?_, ?_⟩
  · intro h
    simp only [not_or, Bool.not_eq_true] at h
    rw [hchar, if_neg (by rw [h.1, h.2]; decide)]
  · intro h1 hno
    have hb : (sSOURCE.isPrefixOf ((splitCRLF request).headD [])
        || sPUT.isPrefixOf ((splitCRLF request).headD [])) = true := by
      rcases h1 with h | h
      · rw [h, Bool.true_or]
      · rw [h, Bool.or_true]
    have hA : (splitCRLF request).any (authLineOk pw) = false := by
      cases hA2 : (splitCRLF request).any (authLineOk pw)
      · rfl
      · exact absurd (List.any_eq_true.mp hA2) hno
    rw [hchar, if_pos hb, if_neg (by simp [hA])]
  · rw [hchar]
    by_cases hb : (sSOURCE.isPrefixOf ((splitCRLF request).headD [])
        || sPUT.isPrefixOf ((splitCRLF request).headD [])) = true
    · by_cases hA : (splitCRLF request).any (authLineOk pw) = true
      · rw [if_pos hb, if_pos hA]
        constructor
        · intro _
          exact ⟨by simpa using hb, List.any_eq_true.mp hA⟩
        · intro _
          rfl
      · rw [if_pos hb, if_neg hA]
        constructor
        · intro hcontra
          exact absurd hcontra (by decide)
        · rintro ⟨-, hex⟩
          exact absurd (List.any_eq_true.mpr hex) hA
    · rw [if_neg hb]
      constructor
      · intro hcontra
        exact absurd hcontra (by decide)
      · rintro ⟨hor, -⟩
        refine absurd ?_ hb
        rcases hor with h | h
        · rw [h, Bool.true_or]
        · rw [h, Bool.or_true]

/-- Witness for C6: a GET request gets 405, a PUT request without
credentials gets 401, a SOURCE request whose Basic credentials
base64-decode to user colon pass with the configured password pass gets
200, and a stray padding character after the credentials is ignored by the
non-strict base64 decoder so the request still gets 200. -/
theorem source_handshake_responses_witness :
    handleSource ("GET /stream HTTP/1.0\r\n\r\n").data ("pass").data
      = SourceResponse.r405 ∧
    handleSource ("PUT /stream HTTP/1.0\r\n\r\n").data ("pass").data
      = SourceResponse.r401 ∧
    handleSource
      ("SOURCE /stream HTTP/1.0\r\nAuthorization: Basic dXNlcjpwYXNz\r\n\r\n").data
      ("pass").data = SourceResponse.r200 ∧
    handleSource
      ("SOURCE /stream HTTP/1.0\r\nAuthorization: Basic dXNlcjpwYXNz=\r\n\r\n").data
      ("pass").data = SourceResponse.r200 :=
  ⟨(source_handshake_responses ("GET /stream HTTP/1.0\r\n\r\n").data ("pass").data).1
      (by decide),
   (source_handshake_responses ("PUT /stream HTTP/1.0\r\n\r\n").data ("pass").data).2.1
      (by decide) (by decide),
   (source_handshake_responses
      ("SOURCE /stream HTTP/1.0\r\nAuthorization: Basic dXNlcjpwYXNz\r\n\r\n").data
      ("pass").data).2.2.mpr
      ⟨Or.inl (by decide),
       ("Authorization: Basic dXNlcjpwYXNz").data, by decide, by decide⟩,
   (source_handshake_responses
      ("SOURCE /stream HTTP/1.0\r\nAuthorization: Basic dXNlcjpwYXNz=\r\n\r\n").data
      ("pass").data).2.2.mpr
      ⟨Or.inl (by decide),
       ("Authorization: Basic dXNlcjpwYXNz=").data, by decide, by decide⟩⟩

end Cycast
